import Mathlib

/-! SIM800L GSM driver (Drivers/SIM800L/sim800l.c, sim800l.h)

A shallow embedding of the driver: every function of `sim800l.c` becomes a
function on an explicit `World`, which holds the global response buffer, the
log of calls made to the serial transport and the timer, and the bytes the
module is going to deliver to each receive.

Bytes are natural numbers (below 256 for real data).  A `char *` argument is
the list of the bytes of memory starting at the pointer: the string it denotes
ends just before its first NUL byte.  The UART handle is passed unchanged to
every transport call and is left out.
-/

namespace SIM800L

/-! ## C library -/

/-- C string literal: the characters followed by the NUL terminator. -/
def lit (s : String) : List Nat :=
  s.toList.map Char.toNat ++ [0]

/-- Number of bytes before the first NUL byte (C `strlen`). -/
def strlen : List Nat → Nat
  | [] => 0
  | b :: rest => if b = 0 then 0 else strlen rest + 1

/-- Characters of a C string: the bytes before its first NUL byte. -/
def chars (s : List Nat) : List Nat :=
  s.take (strlen s)

/-- Text produced by a `printf` format: `%s` (bytes 37, 115) is replaced by the
characters of the next argument, every other byte is copied, and the format
ends at its NUL byte. -/
def format : List Nat → List (List Nat) → List Nat
  | [], _ => []
  | 0 :: _, _ => []
  | 37 :: 115 :: fmt, arg :: args => chars arg ++ format fmt args
  | c :: fmt, args => c :: format fmt args

/-- Consecutive byte stores starting at index `i`, as (index, byte) pairs. -/
def putBytes (i : Nat) : List Nat → List (Nat × Nat)
  | [] => []
  | b :: bs => (i, b) :: putBytes (i + 1) bs

/-- Memory after a sequence of byte stores. -/
def store (buf : List Nat) (writes : List (Nat × Nat)) : List Nat :=
  writes.foldl (fun b iw => b.set iw.1 iw.2) buf

/-- Result of `snprintf`: the stores it performs, the buffer afterwards and
the return value. -/
structure Snprintf where
  writes : List (Nat × Nat)
  buf : List Nat
  ret : Nat

/-- C `snprintf(buf, size, fmt, args...)`: at most `size - 1` bytes of the
formatted text are stored from index 0, followed by a NUL byte; nothing is
stored when `size` is 0.  The return value is the length of the whole text. -/
def snprintf (buf : List Nat) (size : Nat) (fmt : List Nat) (args : List (List Nat)) : Snprintf :=
  let text := format fmt args
  let writes :=
    if size = 0 then []
    else putBytes 0 (text.take (size - 1)) ++ [(min text.length (size - 1), 0)]
  { writes := writes, buf := store buf writes, ret := text.length }

/-! ## Serial transport and timer -/

/-- One call to the serial transport or to the timer, with its arguments. -/
inductive Event where
  | transmit (pData : List Nat) (Size : Nat) (Timeout : Nat)
  | receive (Size : Nat) (Timeout : Nat)
  | delay (Delay : Nat)
  deriving DecidableEq, Repr

/-- State of the program and of its environment. -/
structure World where
  /-- Response buffer, `char sim800l_buffer[128]`. -/
  sim800l_buffer : List Nat
  /-- Calls made so far, oldest first. -/
  calls : List Event
  /-- Bytes the module delivers to each coming receive, next receive first. -/
  rx : List (List Nat)

/-- Modelled from the spec: the maximum ("unbounded") wait of the Serial
Transport capability; the header that defines the constant is missing, and the
largest 32-bit value stands for it. -/
def HAL_MAX_DELAY : Nat := 0xFFFFFFFF

/-- Modelled from the spec: blocking transmit(bytes) of the Serial Transport
capability, whose code is missing.  The call sends the first `Size` bytes at
`pData`; the bytes, `Size` and `Timeout` are logged. -/
def HAL_UART_Transmit (w : World) (pData : List Nat) (Size Timeout : Nat) : World :=
  { w with calls := w.calls ++ [Event.transmit (pData.take Size) Size Timeout] }

/-- Buffer after a receive of capacity `Size` that was delivered `reply`: the
delivered bytes (at most `Size`) replace the front of the buffer, the rest of
the buffer keeps its previous content. -/
def recvInto (buf : List Nat) (Size : Nat) (reply : List Nat) : List Nat :=
  reply.take Size ++ buf.drop (reply.take Size).length

/-- Modelled from the spec: blocking receive(buffer, capacity, max_wait) of the
Serial Transport capability, whose code is missing, receiving into
`sim800l_buffer`.  The bytes the module delivers are stored from index 0; "an
operation that receives fewer bytes than capacity leaves the remainder at
whatever value previously occupied it".  The number of bytes delivered is the
transport's own knowledge and is not logged. -/
def HAL_UART_Receive (w : World) (Size Timeout : Nat) : World :=
  { sim800l_buffer := recvInto w.sim800l_buffer Size (w.rx.headD [])
    calls := w.calls ++ [Event.receive Size Timeout]
    rx := w.rx.tail }

/-- Modelled from the spec: blocking sleep(milliseconds) of the Timer
capability, whose code is missing; the call is logged. -/
def HAL_Delay (w : World) (Delay : Nat) : World :=
  { w with calls := w.calls ++ [Event.delay Delay] }

/-! ## sim800l.h -/

def AT_CMD_TEST : List Nat := lit "AT\r\n"
def AT_CMD_ECHO_OFF : List Nat := lit "ATE0\r\n"
def AT_CMD_SMS_TEXT_MODE : List Nat := lit "AT+CMGF=1\r\n"
def AT_CMD_SIGNAL_QUALITY : List Nat := lit "AT+CSQ\r\n"
def AT_CMD_SEND_SMS : List Nat := lit "AT+CMGS=\""

/-! ## sim800l.c -/

/-- The value of `sizeof(sim800l_buffer)` for `char sim800l_buffer[128]`. -/
def sizeof_sim800l_buffer : Nat := 128

/-- The value of `sizeof(command)` for the local `char command[50]`. -/
def sizeof_command : Nat := 50

/-- Start of the program: the global buffer is zero-initialised, nothing has
been called, and `rx` is what the module is going to deliver. -/
def World.boot (rx : List (List Nat)) : World :=
  { sim800l_buffer := List.replicate sizeof_sim800l_buffer 0, calls := [], rx := rx }

def SIM800L_SendATCommand (w : World) (command : List Nat) : World :=
  let w1 := HAL_UART_Transmit w command (strlen command) HAL_MAX_DELAY
  HAL_UART_Receive w1 sizeof_sim800l_buffer HAL_MAX_DELAY

def SIM800L_Init (w : World) : World :=
  let w1 := SIM800L_SendATCommand w AT_CMD_TEST
  let w2 := SIM800L_SendATCommand w1 AT_CMD_ECHO_OFF
  SIM800L_SendATCommand w2 AT_CMD_SMS_TEXT_MODE

/-- The parameter is `uint32_t delay_ms`. -/
def SIM800L_Delay (w : World) (delay_ms : Nat) : World :=
  HAL_Delay w (delay_ms % 2 ^ 32)

/-- The `snprintf` call of `SIM800L_SendSMS` on its local `char command[50]`.
The array is not initialised: `stack` gives the byte found at each of its
indices on entry. -/
def SIM800L_SendSMS_snprintf (stack : Nat → Nat) (phoneNumber : List Nat) : Snprintf :=
  let command0 := (List.range sizeof_command).map stack
  snprintf command0 sizeof_command (lit "%s%s\"\r\n") [AT_CMD_SEND_SMS, phoneNumber]

def SIM800L_SendSMS (w : World) (stack : Nat → Nat) (phoneNumber message : List Nat) : World :=
  let command := (SIM800L_SendSMS_snprintf stack phoneNumber).buf
  let w1 := SIM800L_SendATCommand w command
  let w2 := SIM800L_Delay w1 1000
  let w3 := SIM800L_SendATCommand w2 message
  let endMessage : List Nat := [0x1A]
  HAL_UART_Transmit w3 endMessage 1 HAL_MAX_DELAY

def SIM800L_ReadSignalQuality (w : World) : World :=
  SIM800L_SendATCommand w AT_CMD_SIGNAL_QUALITY

/-- The text named by the specification of `SIM800L_SendSMS`: the prefix
AT+CMGS=", the characters of the phone number, a closing quote, CR, LF. -/
def smsText (phoneNumber : List Nat) : List Nat :=
  chars (lit "AT+CMGS=\"") ++ chars phoneNumber ++ [0x22, 0x0D, 0x0A]

/-- Payloads of the transmit calls of a log, in order. -/
def transmitted : List Event → List (List Nat)
  | [] => []
  | Event.transmit pData _ _ :: rest => pData :: transmitted rest
  | _ :: rest => transmitted rest

/-! ## Lemmas on the C library -/

theorem strlen_le (s : List Nat) : strlen s ≤ s.length := by
  induction s with
  | nil => simp [strlen]
  | cons b rest ih =>
    by_cases hb : b = 0
    · simp [strlen, hb]
    · simp [strlen, hb, ih]

theorem strlen_append_nul (pre post : List Nat) (h : ∀ b ∈ pre, b ≠ 0) :
    strlen (pre ++ 0 :: post) = pre.length := by
  induction pre with
  | nil => simp [strlen]
  | cons b rest ih =>
    have hb : b ≠ 0 := h b (by simp)
    have hrest : ∀ c ∈ rest, c ≠ 0 := fun c hc => h c (by simp [hc])
    simp [strlen, hb, ih hrest]

theorem chars_append_nul (pre post : List Nat) (h : ∀ b ∈ pre, b ≠ 0) :
    chars (pre ++ 0 :: post) = pre := by
  simp [chars, strlen_append_nul pre post h]

theorem chars_ne_zero (s : List Nat) : ∀ b ∈ chars s, b ≠ 0 := by
  induction s with
  | nil => simp [chars, strlen]
  | cons c rest ih =>
    by_cases hc : c = 0
    · simp [chars, strlen, hc]
    · intro b hb
      simp only [chars, strlen, hc, if_false, List.take_succ_cons, List.mem_cons] at hb
      rcases hb with hb | hb
      · exact hb ▸ hc
      · exact ih b hb

theorem chars_length (s : List Nat) : (chars s).length = strlen s := by
  simp [chars, strlen_le s]

theorem store_append (buf : List Nat) (ws1 ws2 : List (Nat × Nat)) :
    store buf (ws1 ++ ws2) = store (store buf ws1) ws2 := by
  simp [store, List.foldl_append]

theorem store_putBytes (bs pre mid post : List Nat) (h : mid.length = bs.length) :
    store (pre ++ mid ++ post) (putBytes pre.length bs) = pre ++ bs ++ post := by
  induction bs generalizing pre mid with
  | nil =>
    cases mid with
    | nil => simp [store, putBytes]
    | cons m mid2 => simp at h
  | cons b bs ih =>
    cases mid with
    | nil => simp at h
    | cons m mid2 =>
      have hlen : mid2.length = bs.length := by simpa using h
      have hset : (pre ++ m :: mid2 ++ post).set pre.length b = (pre ++ [b]) ++ mid2 ++ post := by
        simp [List.set_append]
      have hstep := ih (pre ++ [b]) mid2 hlen
      simp only [List.length_append, List.length_singleton] at hstep
      simp only [putBytes, store, List.foldl_cons]
      rw [hset]
      simpa [store] using hstep

theorem putBytes_length (i : Nat) (bs : List Nat) : (putBytes i bs).length = bs.length := by
  induction bs generalizing i with
  | nil => rfl
  | cons b bs ih => simp [putBytes, ih]

theorem putBytes_index (bs : List Nat) (i : Nat) :
    ∀ iw ∈ putBytes i bs, i ≤ iw.1 ∧ iw.1 < i + bs.length := by
  induction bs generalizing i with
  | nil => simp [putBytes]
  | cons b bs ih =>
    intro iw hiw
    simp only [putBytes, List.mem_cons] at hiw
    rcases hiw with hiw | hiw
    · subst hiw
      simp
    · have := ih (i + 1) iw hiw
      simp only [List.length_cons]
      omega

theorem snprintf_buf (buf : List Nat) (size : Nat) (fmt : List Nat) (args : List (List Nat))
    (h0 : 0 < size) (hsize : size ≤ buf.length) :
    (snprintf buf size fmt args).buf =
      (format fmt args).take (size - 1) ++
        0 :: buf.drop (((format fmt args).take (size - 1)).length + 1) := by
  have hne : size ≠ 0 := by omega
  simp only [snprintf, hne, if_false]
  generalize htext : format fmt args = text
  have hn : min text.length (size - 1) = (text.take (size - 1)).length := by
    simp [List.length_take, Nat.min_comm]
  rw [hn]
  generalize ht : text.take (size - 1) = t
  have htlen : t.length < buf.length := by
    have : t.length ≤ size - 1 := by
      rw [← ht]
      simp [List.length_take]
    omega
  have h1 : store buf (putBytes 0 t) = t ++ buf.drop t.length := by
    have := store_putBytes t [] (buf.take t.length) (buf.drop t.length)
      (by simp [List.length_take]; omega)
    simpa using this
  rw [store_append, h1]
  have hdrop : buf.drop t.length = buf[t.length] :: buf.drop (t.length + 1) := by
    simp
  simp only [store, List.foldl_cons, List.foldl_nil, List.set_append, Nat.lt_irrefl, if_false,
    Nat.sub_self]
  rw [hdrop]
  rfl

theorem sms_format (phoneNumber : List Nat) :
    format (lit "%s%s\"\r\n") [AT_CMD_SEND_SMS, phoneNumber] = smsText phoneNumber := by
  simp [format, lit, smsText, AT_CMD_SEND_SMS]

/-! ## Lemmas on the driver -/

theorem sendAT_calls (w : World) (command : List Nat) :
    (SIM800L_SendATCommand w command).calls =
      w.calls ++ [Event.transmit (chars command) (strlen command) HAL_MAX_DELAY,
        Event.receive 128 HAL_MAX_DELAY] := by
  simp [SIM800L_SendATCommand, HAL_UART_Transmit, HAL_UART_Receive, chars, sizeof_sim800l_buffer]

theorem sendAT_buffer (w : World) (command : List Nat) :
    (SIM800L_SendATCommand w command).sim800l_buffer =
      recvInto w.sim800l_buffer 128 (w.rx.headD []) := by
  simp [SIM800L_SendATCommand, HAL_UART_Transmit, HAL_UART_Receive, sizeof_sim800l_buffer]

theorem sendAT_rx (w : World) (command : List Nat) :
    (SIM800L_SendATCommand w command).rx = w.rx.tail := by
  simp [SIM800L_SendATCommand, HAL_UART_Transmit, HAL_UART_Receive]

theorem recvInto_length (buf reply : List Nat) (h : buf.length = 128) :
    (recvInto buf 128 reply).length = 128 := by
  simp only [recvInto, List.length_append, List.length_take, List.length_drop, h]
  omega

theorem init_calls (w : World) :
    (SIM800L_Init w).calls =
      w.calls ++ [Event.transmit [65, 84, 13, 10] 4 HAL_MAX_DELAY,
        Event.receive 128 HAL_MAX_DELAY,
        Event.transmit [65, 84, 69, 48, 13, 10] 6 HAL_MAX_DELAY,
        Event.receive 128 HAL_MAX_DELAY,
        Event.transmit [65, 84, 43, 67, 77, 71, 70, 61, 49, 13, 10] 11 HAL_MAX_DELAY,
        Event.receive 128 HAL_MAX_DELAY] := by
  simp only [SIM800L_Init, sendAT_calls, List.append_assoc]
  rfl

theorem smsText_ne_zero (phoneNumber : List Nat) : ∀ b ∈ smsText phoneNumber, b ≠ 0 := by
  intro b hb
  simp only [smsText, List.mem_append] at hb
  rcases hb with (hb | hb) | hb
  · exact chars_ne_zero _ b hb
  · exact chars_ne_zero _ b hb
  · intro h0
    subst h0
    simp at hb

theorem smsText_length (phoneNumber : List Nat) :
    (smsText phoneNumber).length = strlen phoneNumber + 12 := by
  have h : (chars (lit "AT+CMGS=\"")).length = 9 := by decide
  simp only [smsText, List.length_append, h, chars_length, List.length_cons, List.length_nil]
  omega

theorem sms_command_buf (stack : Nat → Nat) (phoneNumber : List Nat) :
    (SIM800L_SendSMS_snprintf stack phoneNumber).buf =
      (smsText phoneNumber).take 49 ++
        0 :: ((List.range 50).map stack).drop (((smsText phoneNumber).take 49).length + 1) := by
  simp only [SIM800L_SendSMS_snprintf]
  rw [snprintf_buf _ _ _ _ (by decide) (by simp), sms_format]
  rfl

theorem sms_command_writes (stack : Nat → Nat) (phoneNumber : List Nat) :
    (SIM800L_SendSMS_snprintf stack phoneNumber).writes =
      putBytes 0 ((smsText phoneNumber).take 49) ++
        [(min (smsText phoneNumber).length 49, 0)] := by
  simp only [SIM800L_SendSMS_snprintf, snprintf, sms_format]
  rfl

theorem sms_command_chars (stack : Nat → Nat) (phoneNumber : List Nat) :
    chars (SIM800L_SendSMS_snprintf stack phoneNumber).buf = (smsText phoneNumber).take 49 := by
  rw [sms_command_buf]
  exact chars_append_nul _ _ (fun b hb => smsText_ne_zero phoneNumber b (List.mem_of_mem_take hb))

theorem sendSMS_calls (w : World) (stack : Nat → Nat) (phoneNumber message : List Nat) :
    (SIM800L_SendSMS w stack phoneNumber message).calls =
      w.calls ++
        [Event.transmit ((smsText phoneNumber).take 49) ((smsText phoneNumber).take 49).length
            HAL_MAX_DELAY,
          Event.receive 128 HAL_MAX_DELAY,
          Event.delay 1000,
          Event.transmit (chars message) (strlen message) HAL_MAX_DELAY,
          Event.receive 128 HAL_MAX_DELAY,
          Event.transmit [26] 1 HAL_MAX_DELAY] := by
  have hc := sms_command_chars stack phoneNumber
  simp only [SIM800L_SendSMS, HAL_UART_Transmit, SIM800L_Delay, HAL_Delay, sendAT_calls,
    ← chars_length, hc, List.append_assoc]
  simp

theorem recvInto_full (buf reply : List Nat) (hbuf : buf.length = 128)
    (hfull : 128 ≤ reply.length) : recvInto buf 128 reply = reply.take 128 := by
  have hl : (reply.take 128).length = 128 := by
    rw [List.length_take]
    omega
  simp only [recvInto, hl]
  rw [List.drop_of_length_le (by omega)]
  simp

theorem sendAT_length (w : World) (command : List Nat) (h : w.sim800l_buffer.length = 128) :
    (SIM800L_SendATCommand w command).sim800l_buffer.length = 128 := by
  rw [sendAT_buffer]
  exact recvInto_length _ _ h

theorem init_length (w : World) (h : w.sim800l_buffer.length = 128) :
    (SIM800L_Init w).sim800l_buffer.length = 128 := by
  simp only [SIM800L_Init]
  exact sendAT_length _ _ (sendAT_length _ _ (sendAT_length _ _ h))

theorem sendSMS_length (w : World) (stack : Nat → Nat) (phoneNumber message : List Nat)
    (h : w.sim800l_buffer.length = 128) :
    (SIM800L_SendSMS w stack phoneNumber message).sim800l_buffer.length = 128 := by
  simp only [SIM800L_SendSMS, HAL_UART_Transmit, SIM800L_Delay, HAL_Delay]
  apply sendAT_length
  exact sendAT_length _ _ h

theorem init_buffer (buf : List Nat) (calls : List Event) (r1 r2 r3 : List Nat)
    (rest : List (List Nat)) :
    (SIM800L_Init ⟨buf, calls, r1 :: r2 :: r3 :: rest⟩).sim800l_buffer =
      recvInto (recvInto (recvInto buf 128 r1) 128 r2) 128 r3 := by
  simp [SIM800L_Init, sendAT_buffer, sendAT_rx]

/-! ## The exchange primitive -/

/-- C1: for every command string (bytes `pre` without NUL, then the NUL
terminator, then whatever memory follows), `SIM800L_SendATCommand` appends
exactly two calls to the log: a transmit of exactly `pre`, with size
`strlen command` and the maximum wait, then a receive of 128 bytes (the
capacity of the response buffer) with the maximum wait, stored into the
response buffer; no other transmit, receive or delay is made. -/
theorem SIM800L_SendATCommand_two_calls (w : World) (pre post : List Nat)
    (hpre : ∀ b ∈ pre, b ≠ 0) :
    (SIM800L_SendATCommand w (pre ++ 0 :: post)).calls =
        w.calls ++ [Event.transmit pre (strlen (pre ++ 0 :: post)) HAL_MAX_DELAY,
          Event.receive sizeof_sim800l_buffer HAL_MAX_DELAY]
      ∧ strlen (pre ++ 0 :: post) = pre.length
      ∧ sizeof_sim800l_buffer = 128
      ∧ HAL_MAX_DELAY = 2 ^ 32 - 1
      ∧ (SIM800L_SendATCommand w (pre ++ 0 :: post)).sim800l_buffer =
          recvInto w.sim800l_buffer 128 (w.rx.headD [])
      ∧ (SIM800L_SendATCommand w (pre ++ 0 :: post)).rx = w.rx.tail := by
  refine ⟨?_, strlen_append_nul pre post hpre, rfl, by decide, sendAT_buffer w _, sendAT_rx w _⟩
  rw [sendAT_calls, chars_append_nul pre post hpre]
  rfl

/-- Witness of C1 at the command "AT\r\n" sent from the boot state. -/
theorem SIM800L_SendATCommand_two_calls_witness :
    (∀ b ∈ [65, 84, 13, 10], b ≠ 0) ∧
    ((SIM800L_SendATCommand (World.boot []) ([65, 84, 13, 10] ++ 0 :: [])).calls =
        (World.boot []).calls ++
          [Event.transmit [65, 84, 13, 10] (strlen ([65, 84, 13, 10] ++ 0 :: [])) HAL_MAX_DELAY,
          Event.receive sizeof_sim800l_buffer HAL_MAX_DELAY]
      ∧ strlen ([65, 84, 13, 10] ++ 0 :: []) = [65, 84, 13, 10].length
      ∧ sizeof_sim800l_buffer = 128
      ∧ HAL_MAX_DELAY = 2 ^ 32 - 1
      ∧ (SIM800L_SendATCommand (World.boot []) ([65, 84, 13, 10] ++ 0 :: [])).sim800l_buffer =
          recvInto (World.boot []).sim800l_buffer 128 ((World.boot []).rx.headD [])
      ∧ (SIM800L_SendATCommand (World.boot []) ([65, 84, 13, 10] ++ 0 :: [])).rx =
          (World.boot []).rx.tail) :=
  ⟨by decide, SIM800L_SendATCommand_two_calls (World.boot []) [65, 84, 13, 10] [] (by decide)⟩

/-! ## Initialisation -/

/-- C4: `SIM800L_Init` appends exactly three exchanges to the log, in this
order: the 4 bytes AT CR LF, the 6 bytes ATE0 CR LF and the 11 bytes AT+CMGF=1
CR LF, each followed by a 128-byte receive, whatever the buffer holds and
whatever the module returns. -/
theorem SIM800L_Init_three_exchanges (w : World) :
    (SIM800L_Init w).calls =
        w.calls ++ [Event.transmit (chars (lit "AT\r\n")) 4 HAL_MAX_DELAY,
          Event.receive 128 HAL_MAX_DELAY,
          Event.transmit (chars (lit "ATE0\r\n")) 6 HAL_MAX_DELAY,
          Event.receive 128 HAL_MAX_DELAY,
          Event.transmit (chars (lit "AT+CMGF=1\r\n")) 11 HAL_MAX_DELAY,
          Event.receive 128 HAL_MAX_DELAY]
      ∧ chars (lit "AT\r\n") = [0x41, 0x54, 0x0D, 0x0A]
      ∧ chars (lit "ATE0\r\n") = [0x41, 0x54, 0x45, 0x30, 0x0D, 0x0A]
      ∧ chars (lit "AT+CMGF=1\r\n") =
          [0x41, 0x54, 0x2B, 0x43, 0x4D, 0x47, 0x46, 0x3D, 0x31, 0x0D, 0x0A] := by
  refine ⟨?_, by decide, by decide, by decide⟩
  rw [init_calls]
  rfl

/-- C7: two calls of `SIM800L_Init` in sequence transmit the same three
payloads in the same order, for every initial buffer content and every
sequence of module replies. -/
theorem SIM800L_Init_twice_same_commands (w : World) :
    transmitted ((SIM800L_Init (SIM800L_Init w)).calls.drop (SIM800L_Init w).calls.length) =
        transmitted ((SIM800L_Init w).calls.drop w.calls.length)
      ∧ transmitted ((SIM800L_Init w).calls.drop w.calls.length) =
        [chars AT_CMD_TEST, chars AT_CMD_ECHO_OFF, chars AT_CMD_SMS_TEXT_MODE] := by
  constructor
  · rw [init_calls (SIM800L_Init w), init_calls w]
    simp [transmitted]
  · rw [init_calls w]
    simp only [List.drop_left]
    decide

/-! ## Signal quality and delay -/

/-- C5: `SIM800L_ReadSignalQuality` makes exactly one exchange: a transmit of
the 8 bytes AT+CSQ CR LF followed by one 128-byte receive into the response
buffer; the state it leaves is that of the exchange, nothing is computed from
the buffer. -/
theorem SIM800L_ReadSignalQuality_one_exchange (w : World) :
    (SIM800L_ReadSignalQuality w).calls =
        w.calls ++ [Event.transmit [0x41, 0x54, 0x2B, 0x43, 0x53, 0x51, 0x0D, 0x0A] 8 HAL_MAX_DELAY,
          Event.receive 128 HAL_MAX_DELAY]
      ∧ chars (lit "AT+CSQ\r\n") = [0x41, 0x54, 0x2B, 0x43, 0x53, 0x51, 0x0D, 0x0A]
      ∧ (SIM800L_ReadSignalQuality w).sim800l_buffer =
          recvInto w.sim800l_buffer 128 (w.rx.headD [])
      ∧ (SIM800L_ReadSignalQuality w).rx = w.rx.tail := by
  refine ⟨?_, by decide, sendAT_buffer w _, sendAT_rx w _⟩
  simp only [SIM800L_ReadSignalQuality, sendAT_calls]
  rfl

/-- C8: for every 32-bit duration `d`, `SIM800L_Delay` appends exactly one
timer sleep with argument `d` to the log and nothing else: no transmit, no
receive, the response buffer and the pending module bytes are unchanged. -/
theorem SIM800L_Delay_only_sleeps (w : World) (d : Nat) (hd : d < 2 ^ 32) :
    (SIM800L_Delay w d).calls = w.calls ++ [Event.delay d]
      ∧ (SIM800L_Delay w d).sim800l_buffer = w.sim800l_buffer
      ∧ (SIM800L_Delay w d).rx = w.rx := by
  have hmod : d % 2 ^ 32 = d := Nat.mod_eq_of_lt hd
  simp only [SIM800L_Delay, HAL_Delay, hmod]
  exact ⟨trivial, trivial, trivial⟩

/-- Witness of C8 at `SIM800L_Delay(1000)` from the boot state. -/
theorem SIM800L_Delay_only_sleeps_witness :
    1000 < 2 ^ 32 ∧
    ((SIM800L_Delay (World.boot [[79, 75]]) 1000).calls =
        (World.boot [[79, 75]]).calls ++ [Event.delay 1000]
      ∧ (SIM800L_Delay (World.boot [[79, 75]]) 1000).sim800l_buffer =
        (World.boot [[79, 75]]).sim800l_buffer
      ∧ (SIM800L_Delay (World.boot [[79, 75]]) 1000).rx = (World.boot [[79, 75]]).rx) :=
  ⟨by decide, SIM800L_Delay_only_sleeps (World.boot [[79, 75]]) 1000 (by decide)⟩

/-! ## Sending an SMS -/

/-- C2: for every phone number and message, `SIM800L_SendSMS` appends exactly
six calls to the log: the exchange of the formatted command (the characters of
the local buffer after `snprintf`, which are the first 49 bytes at most of the
text), a delay of 1000 ms, the exchange of the characters of the message, and a
last transmit of the single byte 0x1A with no receive after it.  For the phone
number "+15551234567" and the message "Hello" the formatted command is
AT+CMGS="+15551234567" CR LF. -/
theorem SIM800L_SendSMS_six_calls (w : World) (stack : Nat → Nat)
    (phoneNumber message : List Nat) :
    (SIM800L_SendSMS w stack phoneNumber message).calls =
        w.calls ++
          [Event.transmit (chars (SIM800L_SendSMS_snprintf stack phoneNumber).buf)
              (strlen (SIM800L_SendSMS_snprintf stack phoneNumber).buf) HAL_MAX_DELAY,
            Event.receive 128 HAL_MAX_DELAY,
            Event.delay 1000,
            Event.transmit (chars message) (strlen message) HAL_MAX_DELAY,
            Event.receive 128 HAL_MAX_DELAY,
            Event.transmit [0x1A] 1 HAL_MAX_DELAY]
      ∧ chars (SIM800L_SendSMS_snprintf stack phoneNumber).buf = (smsText phoneNumber).take 49
      ∧ (SIM800L_SendSMS w stack (lit "+15551234567") (lit "Hello")).calls =
        w.calls ++
          [Event.transmit (chars (lit "AT+CMGS=\"+15551234567\"\r\n")) 24 HAL_MAX_DELAY,
            Event.receive 128 HAL_MAX_DELAY,
            Event.delay 1000,
            Event.transmit (chars (lit "Hello")) 5 HAL_MAX_DELAY,
            Event.receive 128 HAL_MAX_DELAY,
            Event.transmit [0x1A] 1 HAL_MAX_DELAY] := by
  refine ⟨?_, sms_command_chars stack phoneNumber, ?_⟩
  · have hs : strlen (SIM800L_SendSMS_snprintf stack phoneNumber).buf =
        ((smsText phoneNumber).take 49).length := by
      rw [← chars_length, sms_command_chars]
    rw [sendSMS_calls, sms_command_chars, hs]
  · rw [sendSMS_calls]
    have h1 : (smsText (lit "+15551234567")).take 49 =
        chars (lit "AT+CMGS=\"+15551234567\"\r\n") := by decide
    have h2 : (chars (lit "AT+CMGS=\"+15551234567\"\r\n")).length = 24 := by decide
    have h3 : strlen (lit "Hello") = 5 := by decide
    rw [h1, h2, h3]

/-- C3: when the text AT+CMGS=" + phone number + " CR LF is longer than 50
bytes (a phone number of 39 characters or more), the local buffer after
`snprintf` holds the first 49 bytes of the text and a NUL byte at index 49,
`snprintf` performs exactly 50 stores, all at indices below 50, and the first
transmit of `SIM800L_SendSMS` sends exactly those 49 bytes. -/
theorem SIM800L_SendSMS_truncates (w : World) (stack : Nat → Nat)
    (phoneNumber message : List Nat) (hlong : 50 < (smsText phoneNumber).length) :
    39 ≤ strlen phoneNumber
      ∧ (SIM800L_SendSMS_snprintf stack phoneNumber).buf.take 49 = (smsText phoneNumber).take 49
      ∧ (SIM800L_SendSMS_snprintf stack phoneNumber).buf[49]? = some 0
      ∧ (SIM800L_SendSMS_snprintf stack phoneNumber).buf.length = 50
      ∧ (SIM800L_SendSMS_snprintf stack phoneNumber).writes.length = 50
      ∧ (∀ iw ∈ (SIM800L_SendSMS_snprintf stack phoneNumber).writes, iw.1 < 50)
      ∧ ((smsText phoneNumber).take 49).length = 49
      ∧ (SIM800L_SendSMS w stack phoneNumber message).calls =
        w.calls ++
          [Event.transmit ((smsText phoneNumber).take 49) 49 HAL_MAX_DELAY,
            Event.receive 128 HAL_MAX_DELAY,
            Event.delay 1000,
            Event.transmit (chars message) (strlen message) HAL_MAX_DELAY,
            Event.receive 128 HAL_MAX_DELAY,
            Event.transmit [0x1A] 1 HAL_MAX_DELAY] := by
  have hlen := smsText_length phoneNumber
  have h49 : ((smsText phoneNumber).take 49).length = 49 := by
    rw [List.length_take]
    omega
  have hbuf := sms_command_buf stack phoneNumber
  rw [h49] at hbuf
  have hwr := sms_command_writes stack phoneNumber
  have hmin : min (smsText phoneNumber).length 49 = 49 := by omega
  rw [hmin] at hwr
  refine ⟨by omega, ?_, ?_, ?_, ?_, ?_, h49, ?_⟩
  · rw [hbuf, List.take_append_of_le_length (by omega), List.take_take]
    simp
  · rw [hbuf, List.getElem?_append_right (by omega), h49]
    simp
  · rw [hbuf]
    simp [h49]
  · rw [hwr]
    simp [putBytes_length, h49]
  · intro iw hiw
    rw [hwr, List.mem_append] at hiw
    rcases hiw with hiw | hiw
    · have := putBytes_index _ 0 iw hiw
      omega
    · simp only [List.mem_singleton] at hiw
      subst hiw
      decide
  · rw [sendSMS_calls, h49]

/-- Witness of C3 at a phone number of 39 digits. -/
theorem SIM800L_SendSMS_truncates_witness :
    50 < (smsText (List.replicate 39 0x31 ++ [0])).length
      ∧ (SIM800L_SendSMS_snprintf (fun _ => 0xAA) (List.replicate 39 0x31 ++ [0])).buf[49]?
        = some 0 :=
  ⟨by decide,
    (SIM800L_SendSMS_truncates (World.boot []) (fun _ => 0xAA) (List.replicate 39 0x31 ++ [0])
      (lit "Hello") (by decide)).2.2.1⟩

/-- C9, as stated, fails at a phone number of 38 digits: the text is exactly
50 bytes long, and the command transmitted is its first 49 bytes, which end
with the closing quote and CR; the LF is not sent. -/
theorem SIM800L_SendSMS_cuts_text_of_50_bytes :
    (smsText (List.replicate 38 0x31 ++ [0])).length = 50
      ∧ (SIM800L_SendSMS (World.boot []) (fun _ => 0xAA) (List.replicate 38 0x31 ++ [0])
          (lit "Hello")).calls.head? =
        some (Event.transmit ((smsText (List.replicate 38 0x31 ++ [0])).take 49) 49
          HAL_MAX_DELAY)
      ∧ (smsText (List.replicate 38 0x31 ++ [0])).take 49 ≠ smsText (List.replicate 38 0x31 ++ [0])
      ∧ ((smsText (List.replicate 38 0x31 ++ [0])).take 49).drop 46 = [0x31, 0x22, 0x0D] := by
  refine ⟨by decide, ?_, by decide, by decide⟩
  rw [sendSMS_calls]
  have h : ((smsText (List.replicate 38 0x31 ++ [0])).take 49).length = 49 := by decide
  rw [h]
  rfl

/-- C9 amended: when the text AT+CMGS=" + phone number + " CR LF is at most 49
bytes long (a phone number of at most 37 characters), the command transmitted
in the first exchange of `SIM800L_SendSMS` is the whole text, which ends with
the closing quote, CR and LF. -/
theorem SIM800L_SendSMS_whole_text (w : World) (stack : Nat → Nat)
    (phoneNumber message : List Nat) (hfit : (smsText phoneNumber).length ≤ 49) :
    strlen phoneNumber ≤ 37
      ∧ (SIM800L_SendSMS w stack phoneNumber message).calls =
        w.calls ++
          [Event.transmit (smsText phoneNumber) (smsText phoneNumber).length HAL_MAX_DELAY,
            Event.receive 128 HAL_MAX_DELAY,
            Event.delay 1000,
            Event.transmit (chars message) (strlen message) HAL_MAX_DELAY,
            Event.receive 128 HAL_MAX_DELAY,
            Event.transmit [0x1A] 1 HAL_MAX_DELAY]
      ∧ (smsText phoneNumber).drop ((smsText phoneNumber).length - 3) = [0x22, 0x0D, 0x0A] := by
  have hlen := smsText_length phoneNumber
  refine ⟨by omega, ?_, ?_⟩
  · rw [sendSMS_calls, List.take_of_length_le hfit]
  · have h3 : (smsText phoneNumber).length - 3 =
        (chars (lit "AT+CMGS=\"") ++ chars phoneNumber).length := by
      simp only [smsText, List.length_append, List.length_cons, List.length_nil]
      omega
    rw [h3]
    exact List.drop_left _ _

/-- Witness of the amended C9 at the phone number "+15551234567". -/
theorem SIM800L_SendSMS_whole_text_witness :
    (smsText (lit "+15551234567")).length ≤ 49
      ∧ (SIM800L_SendSMS (World.boot []) (fun _ => 0xAA) (lit "+15551234567") (lit "Hello")).calls =
        (World.boot []).calls ++
          [Event.transmit (smsText (lit "+15551234567")) (smsText (lit "+15551234567")).length
              HAL_MAX_DELAY,
            Event.receive 128 HAL_MAX_DELAY,
            Event.delay 1000,
            Event.transmit (chars (lit "Hello")) (strlen (lit "Hello")) HAL_MAX_DELAY,
            Event.receive 128 HAL_MAX_DELAY,
            Event.transmit [0x1A] 1 HAL_MAX_DELAY] :=
  ⟨by decide,
    (SIM800L_SendSMS_whole_text (World.boot []) (fun _ => 0xAA) (lit "+15551234567") (lit "Hello")
      (by decide)).2.1⟩

/-! ## The response buffer -/

/-- C6: the response buffer has 128 bytes at boot and every operation of the
driver keeps it at 128 bytes; an exchange in which the transport delivers
`k < 128` bytes puts them in bytes `0..k-1` and leaves bytes `k..127` as they
were; and the state after such an exchange is exactly the state after a full
128-byte receive of the same buffer content, so nothing in it tells `k`. -/
theorem sim800l_buffer_partial_receive (w : World) (command : List Nat)
    (hlen : w.sim800l_buffer.length = 128) :
    (∀ rx, (World.boot rx).sim800l_buffer.length = 128)
      ∧ (SIM800L_SendATCommand w command).sim800l_buffer.length = 128
      ∧ (SIM800L_Init w).sim800l_buffer.length = 128
      ∧ (SIM800L_ReadSignalQuality w).sim800l_buffer.length = 128
      ∧ (∀ stack phoneNumber message,
          (SIM800L_SendSMS w stack phoneNumber message).sim800l_buffer.length = 128)
      ∧ (∀ d, (SIM800L_Delay w d).sim800l_buffer.length = 128)
      ∧ (∀ k, k < 128 → (w.rx.headD []).length = k →
          (SIM800L_SendATCommand w command).sim800l_buffer.take k = w.rx.headD []
          ∧ (SIM800L_SendATCommand w command).sim800l_buffer.drop k = w.sim800l_buffer.drop k)
      ∧ SIM800L_SendATCommand
          ⟨w.sim800l_buffer, w.calls, (SIM800L_SendATCommand w command).sim800l_buffer :: w.rx.tail⟩
          command = SIM800L_SendATCommand w command := by
  have hafter := sendAT_length w command hlen
  refine ⟨fun rx => by simp [World.boot, sizeof_sim800l_buffer], hafter, init_length w hlen,
    sendAT_length w _ hlen, fun stack p m => sendSMS_length w stack p m hlen, ?_, ?_, ?_⟩
  · intro d
    simpa [SIM800L_Delay, HAL_Delay] using hlen
  · intro k hk hr
    have htake : (w.rx.headD []).take 128 = w.rx.headD [] :=
      List.take_of_length_le (by omega)
    rw [sendAT_buffer]
    simp only [recvInto, htake, hr]
    constructor
    · rw [← hr, List.take_left]
    · rw [← hr, List.drop_left]
  · have hfull := recvInto_full w.sim800l_buffer
      (SIM800L_SendATCommand w command).sim800l_buffer hlen (by omega)
    rw [List.take_of_length_le (by omega)] at hfull
    simp only [SIM800L_SendATCommand, HAL_UART_Transmit, HAL_UART_Receive,
      sizeof_sim800l_buffer, List.headD_cons, List.tail_cons] at hfull ⊢
    rw [hfull]

/-- Witness of C6: from boot the module answers the first receive with the 4
bytes O K CR LF only. -/
theorem sim800l_buffer_partial_receive_witness :
    (World.boot [[79, 75, 13, 10]]).sim800l_buffer.length = 128
      ∧ (SIM800L_SendATCommand (World.boot [[79, 75, 13, 10]]) AT_CMD_TEST).sim800l_buffer.length
        = 128 :=
  ⟨List.length_replicate _ _,
    (sim800l_buffer_partial_receive (World.boot [[79, 75, 13, 10]]) AT_CMD_TEST
      (List.length_replicate _ _)).2.1⟩

/-- C10, as stated, fails: the final buffer is not a function of the bytes
received in the third exchange alone.  With the same three replies (none, none,
the 4 bytes O K CR LF) two initial buffers give two different final buffers. -/
theorem SIM800L_Init_buffer_keeps_stale_bytes :
    ¬ ∃ f : List Nat → List Nat, ∀ (buf r1 r2 r3 : List Nat), buf.length = 128 →
        (SIM800L_Init ⟨buf, [], [r1, r2, r3]⟩).sim800l_buffer = f r3 := by
  rintro ⟨f, hf⟩
  have h0 := hf (List.replicate 128 0) [] [] [79, 75, 13, 10] (List.length_replicate _ _)
  have h1 := hf (List.replicate 128 0x55) [] [] [79, 75, 13, 10] (List.length_replicate _ _)
  rw [init_buffer] at h0 h1
  have h := congrArg (fun l => l.drop 127) (h0.trans h1.symm)
  simp [recvInto] at h

/-- C10 amended: after `SIM800L_Init` the buffer is the result of the third
receive on the buffer left by the second exchange: its first `k` bytes are the
`k` bytes delivered in the third exchange and the bytes from `k` on are those
left by the second exchange; when the third exchange delivers the full 128
bytes, the final buffer is those 128 bytes, whatever the initial content and
the first two replies. -/
theorem SIM800L_Init_buffer_last_reply (buf : List Nat) (calls : List Event)
    (r1 r2 r3 : List Nat) (rest : List (List Nat)) (hlen : buf.length = 128) :
    (SIM800L_Init ⟨buf, calls, r1 :: r2 :: r3 :: rest⟩).sim800l_buffer.take (r3.take 128).length
        = r3.take 128
      ∧ (SIM800L_Init ⟨buf, calls, r1 :: r2 :: r3 :: rest⟩).sim800l_buffer.drop (r3.take 128).length
        = (SIM800L_SendATCommand (SIM800L_SendATCommand ⟨buf, calls, r1 :: r2 :: r3 :: rest⟩
            AT_CMD_TEST) AT_CMD_ECHO_OFF).sim800l_buffer.drop (r3.take 128).length
      ∧ (128 ≤ r3.length →
          (SIM800L_Init ⟨buf, calls, r1 :: r2 :: r3 :: rest⟩).sim800l_buffer = r3.take 128) := by
  have h2 : (recvInto (recvInto buf 128 r1) 128 r2).length = 128 :=
    recvInto_length _ _ (recvInto_length _ _ hlen)
  rw [init_buffer]
  refine ⟨?_, ?_, fun hfull => recvInto_full _ _ h2 hfull⟩
  · simp only [recvInto]
    rw [List.take_left]
  · simp only [sendAT_buffer, sendAT_rx, List.headD_cons, List.tail_cons]
    simp only [recvInto]
    rw [List.drop_left]

/-- Witness of the amended C10: the third reply is 128 bytes 0x4F. -/
theorem SIM800L_Init_buffer_last_reply_witness :
    (List.replicate 128 0x55).length = 128
      ∧ (128 ≤ (List.replicate 128 0x4F).length →
          (SIM800L_Init ⟨List.replicate 128 0x55, [], [79, 75] :: [] ::
            List.replicate 128 0x4F :: []⟩).sim800l_buffer = (List.replicate 128 0x4F).take 128) :=
  ⟨List.length_replicate _ _,
    (SIM800L_Init_buffer_last_reply (List.replicate 128 0x55) [] [79, 75] []
      (List.replicate 128 0x4F) [] (List.length_replicate _ _)).2.2⟩

end SIM800L
